import Mathlib

/-!
Verification development for the whatsapp-store synchronization engine.

The TypeScript source is shallowly embedded: heterogeneous JavaScript values
become the inductive type JsVal, the sanitizer functions transformPrisma and
cleanObjectForPrisma from src/utils.ts become recursive Lean functions, the
per-entity event handlers from src/handlers become pure state transformers
over explicit store lists, and the retry wrapper becomes a function over an
explicit sequence of attempt outcomes.
-/

set_option maxHeartbeats 1000000

namespace WaStore

/-! ## JavaScript value model

A JsVal is a JavaScript runtime value as seen by the sanitizer: primitives,
functions and symbols (the non-data values), Long instances carrying 32-bit
halves, Node buffers, dates (carrying their ISO rendering), arrays and plain
objects. Objects and arrays are represented by the mutual types JsFields and
JsList so that structural recursion and induction stay straightforward. -/

mutual

inductive JsVal where
  | vStr (s : String)
  | vNum (n : Int)
  | vBool (b : Bool)
  | vNull
  | vUndef
  | vFunc (tag : Nat)
  | vSym (tag : Nat)
  | vLong (low high : Int) (unsigned : Bool)
  | vBuffer (bytes : List Nat)
  | vDate (iso : String)
  | vArr (items : JsList)
  | vObj (fields : JsFields)
  deriving DecidableEq, Repr

inductive JsList where
  | nil
  | cons (v : JsVal) (rest : JsList)
  deriving DecidableEq, Repr

inductive JsFields where
  | nil
  | cons (k : String) (v : JsVal) (rest : JsFields)
  deriving DecidableEq, Repr

end

namespace JsFields

/-- Property lookup: first binding for a key wins (JS objects have unique keys). -/
def lookup (k : String) : JsFields → Option JsVal
  | .nil => none
  | .cons k' v rest => if k' = k then some v else lookup k rest

def length : JsFields → Nat
  | .nil => 0
  | .cons _ _ rest => length rest + 1

/-- Every binding satisfies the given key/value predicate. -/
def all (p : String → JsVal → Bool) : JsFields → Bool
  | .nil => true
  | .cons k v rest => p k v && all p rest

end JsFields

namespace JsList

def length : JsList → Nat
  | .nil => 0
  | .cons _ rest => length rest + 1

def toList : JsList → List JsVal
  | .nil => []
  | .cons v rest => v :: toList rest

end JsList

/-- An own property value is a plain JS number. -/
def JsVal.isNum : JsVal → Bool
  | .vNum _ => true
  | _ => false

def JsVal.isBool : JsVal → Bool
  | .vBool _ => true
  | _ => false

def JsVal.isUndef : JsVal → Bool
  | .vUndef => true
  | _ => false

def JsVal.isSym : JsVal → Bool
  | .vSym _ => true
  | _ => false

/-! ## Base64 (Buffer.prototype.toString with encoding base64)

The sanitizer converts byte payloads with Buffer.from(bytes).toString of the
base64 encoding. The encoding is embedded concretely so that the byte-encoding
round-trip property of the spec is a real theorem about strings. -/

def b64Alphabet : List Char :=
  "ABCDEFGHIJKLMNOPQRSTUVWXYZabcdefghijklmnopqrstuvwxyz0123456789+/".toList

def sextetChar (n : Nat) : Char := b64Alphabet.getD n 'A'

def charSextet (c : Char) : Nat := b64Alphabet.indexOf c

/-- Standard base64 encoding of a byte list, with trailing padding. -/
def b64EncodeBytes : List Nat → List Char
  | [] => []
  | [b1] => [sextetChar (b1 / 4), sextetChar (b1 % 4 * 16), '=', '=']
  | [b1, b2] =>
      [sextetChar (b1 / 4), sextetChar (b1 % 4 * 16 + b2 / 16), sextetChar (b2 % 16 * 4), '=']
  | b1 :: b2 :: b3 :: rest =>
      sextetChar (b1 / 4) :: sextetChar (b1 % 4 * 16 + b2 / 16) ::
      sextetChar (b2 % 16 * 4 + b3 / 64) :: sextetChar (b3 % 64) :: b64EncodeBytes rest

/-- Standard base64 decoding: four characters per group, padding at the end. -/
def b64DecodeChars : List Char → List Nat
  | c1 :: c2 :: c3 :: c4 :: rest =>
      if c3 = '=' then [charSextet c1 * 4 + charSextet c2 / 16]
      else if c4 = '=' then
        [charSextet c1 * 4 + charSextet c2 / 16, charSextet c2 % 16 * 16 + charSextet c3 / 4]
      else
        (charSextet c1 * 4 + charSextet c2 / 16) ::
        (charSextet c2 % 16 * 16 + charSextet c3 / 4) ::
        (charSextet c3 % 4 * 64 + charSextet c4) :: b64DecodeChars rest
  | _ => []

def b64Encode (bs : List Nat) : String := String.mk (b64EncodeBytes bs)

def b64Decode (s : String) : List Nat := b64DecodeChars s.toList

theorem charSextet_sextetChar : ∀ n, n < 64 → charSextet (sextetChar n) = n := by decide

theorem sextetChar_ne_pad : ∀ n, n < 64 → sextetChar n ≠ '=' := by decide

/-- Decoding inverts encoding on byte lists. -/
theorem b64_decode_encode : ∀ bs : List Nat, (∀ b ∈ bs, b < 256) →
    b64DecodeChars (b64EncodeBytes bs) = bs := by
  intro bs
  induction bs using b64EncodeBytes.induct with
  | case1 => intro _; simp [b64EncodeBytes, b64DecodeChars]
  | case2 b1 =>
      intro h
      have hb1 : b1 < 256 := h b1 (by simp)
      have h1 : b1 / 4 < 64 := by omega
      have h2 : b1 % 4 * 16 < 64 := by omega
      simp only [b64EncodeBytes, b64DecodeChars, if_pos rfl,
        charSextet_sextetChar _ h1, charSextet_sextetChar _ h2, if_true,
        List.cons.injEq, and_true]
      omega
  | case3 b1 b2 =>
      intro h
      have hb1 : b1 < 256 := h b1 (by simp)
      have hb2 : b2 < 256 := h b2 (by simp)
      have h1 : b1 / 4 < 64 := by omega
      have h2 : b1 % 4 * 16 + b2 / 16 < 64 := by omega
      have h3 : b2 % 16 * 4 < 64 := by omega
      simp only [b64EncodeBytes, b64DecodeChars, if_neg (sextetChar_ne_pad _ h3), if_pos rfl,
        charSextet_sextetChar _ h1, charSextet_sextetChar _ h2, charSextet_sextetChar _ h3,
        if_true, List.cons.injEq, and_true]
      refine ⟨by omega, by omega⟩
  | case4 b1 b2 b3 rest ih =>
      intro h
      have hb1 : b1 < 256 := h b1 (by simp)
      have hb2 : b2 < 256 := h b2 (by simp)
      have hb3 : b3 < 256 := h b3 (by simp)
      have h1 : b1 / 4 < 64 := by omega
      have h2 : b1 % 4 * 16 + b2 / 16 < 64 := by omega
      have h3 : b2 % 16 * 4 + b3 / 64 < 64 := by omega
      have h4 : b3 % 64 < 64 := by omega
      have hrest : ∀ b ∈ rest, b < 256 := fun b hb => h b (by simp [hb])
      simp only [b64EncodeBytes, b64DecodeChars, if_neg (sextetChar_ne_pad _ h3),
        if_neg (sextetChar_ne_pad _ h4),
        charSextet_sextetChar _ h1, charSextet_sextetChar _ h2,
        charSextet_sextetChar _ h3, charSextet_sextetChar _ h4, ih hrest, List.cons.injEq]
      refine ⟨by omega, by omega, by omega, trivial⟩

/-! ## Sanitizer (transformPrisma and cleanObjectForPrisma, src/utils.ts)

transformPrisma walks the top-level fields of a record; cleanObjectForPrisma
recursively cleans nested structures. The branch order matches the source. -/

/-- JS op: a 32-bit value reinterpreted as unsigned (the triple-shift by zero). -/
def u32 (n : Int) : Int := n % 4294967296

/-- toNumber on a Long-shaped value: combine the 32-bit halves, the low half
always unsigned, the high half according to the unsigned flag. -/
def longToNumber (low high : Int) (unsigned : Bool) : Int :=
  if unsigned then u32 high * 4294967296 + u32 low
  else high * 4294967296 + u32 low

/-- JS ToUint8 on an integer: reduce modulo 256 into the byte range. -/
def intToByte (n : Int) : Nat := (n % 256).toNat

/-- The regex test for an all-decimal-digit key (at least one digit). -/
def isDigitString (s : String) : Bool := !s.isEmpty && s.toList.all Char.isDigit

/-- parseInt on an all-digit string. -/
def digitsToNat (s : String) : Nat :=
  s.toList.foldl (fun a c => a * 10 + (c.toNat - 48)) 0

/-- The numeric-keyed byte-dictionary test from cleanObjectForPrisma:
a non-array object with at least one key, all keys decimal-digit strings and
all values numbers. -/
def isByteDict (fields : JsFields) : Bool :=
  fields.length > 0 &&
  fields.all (fun k _ => isDigitString k) &&
  fields.all (fun _ v => v.isNum)

/-- The numeric entries of an object, keeping field order. -/
def dictEntries : JsFields → List (String × Int)
  | .nil => []
  | .cons k (.vNum n) rest => (k, n) :: dictEntries rest
  | .cons _ _ rest => dictEntries rest

/-- Stable insertion of an entry into a list sorted ascending by parsed key. -/
def insertByKey (p : String × Int) : List (String × Int) → List (String × Int)
  | [] => [p]
  | q :: rest =>
      if digitsToNat p.1 ≤ digitsToNat q.1 then p :: q :: rest
      else q :: insertByKey p rest

/-- Stable ascending sort by parsed numeric key (the sort on parseInt keys). -/
def sortByNumKey : List (String × Int) → List (String × Int)
  | [] => []
  | p :: rest => insertByKey p (sortByNumKey rest)

/-- Byte sequence of a numeric-keyed byte dictionary: entries sorted by parsed
key ascending, values coerced to bytes (Uint8Array.from). -/
def dictBytes (fields : JsFields) : List Nat :=
  (sortByNumKey (dictEntries fields)).map (fun p => intToByte p.2)

/-- The serialized-Buffer test: property type is the string Buffer and
property data is an array. -/
def bufferTagged (fields : JsFields) : Bool :=
  match fields.lookup "type", fields.lookup "data" with
  | some (.vStr t), some (.vArr _) => t = "Buffer"
  | _, _ => false

/-- Bytes of an array as Buffer.from sees it: numbers reduced to byte range,
anything non-numeric contributes zero. -/
def arrBytes : JsList → List Nat
  | .nil => []
  | .cons (.vNum n) rest => intToByte n :: arrBytes rest
  | .cons _ rest => 0 :: arrBytes rest

/-- The data array bytes of a Buffer-tagged object. -/
def bufferDataBytes (fields : JsFields) : List Nat :=
  match fields.lookup "data" with
  | some (.vArr items) => arrBytes items
  | _ => []

/-- The Long-shaped-object test: numeric low and high and boolean unsigned. -/
def isLongLike (fields : JsFields) : Bool :=
  (match fields.lookup "low" with | some (.vNum _) => true | _ => false) &&
  (match fields.lookup "high" with | some (.vNum _) => true | _ => false) &&
  (match fields.lookup "unsigned" with | some (.vBool _) => true | _ => false)

def fieldNumOr0 (fields : JsFields) (k : String) : Int :=
  match fields.lookup k with
  | some (.vNum n) => n
  | _ => 0

def fieldBoolOrFalse (fields : JsFields) (k : String) : Bool :=
  match fields.lookup k with
  | some (.vBool b) => b
  | _ => false

def longLikeNumber (fields : JsFields) : Int :=
  longToNumber (fieldNumOr0 fields "low") (fieldNumOr0 fields "high")
    (fieldBoolOrFalse fields "unsigned")

mutual

/-- cleanObjectForPrisma from src/utils.ts lines 50-146: recursively drop
functions and symbols, stringify dates, keep buffers, convert byte
dictionaries and Buffer-tagged objects to base64 strings, collapse
Long-shaped objects to numbers, and recurse into arrays and objects,
removing entries whose cleaned value is undefined. -/
def cleanObjectForPrisma : JsVal → JsVal
  | .vNull => .vNull
  | .vUndef => .vUndef
  | .vFunc _ => .vUndef
  | .vSym _ => .vUndef
  | .vDate iso => .vStr iso
  | .vBuffer bs => .vBuffer bs
  | .vLong low high u => .vNum (longToNumber low high u)
  | .vObj fields =>
      if isByteDict fields then .vStr (b64Encode (dictBytes fields))
      else if bufferTagged fields then .vStr (b64Encode (bufferDataBytes fields))
      else if isLongLike fields then .vNum (longLikeNumber fields)
      else .vObj (cleanFields fields)
  | .vArr items => .vArr (cleanItems items)
  | .vStr s => .vStr s
  | .vNum n => .vNum n
  | .vBool b => .vBool b

/-- Array items are cleaned and undefined results are filtered out. -/
def cleanItems : JsList → JsList
  | .nil => .nil
  | .cons v rest =>
      if (cleanObjectForPrisma v).isUndef then cleanItems rest
      else .cons (cleanObjectForPrisma v) (cleanItems rest)

/-- Object entries are cleaned; keys whose cleaned value is undefined are
removed from the object entirely. -/
def cleanFields : JsFields → JsFields
  | .nil => .nil
  | .cons k v rest =>
      if (cleanObjectForPrisma v).isUndef then cleanFields rest
      else .cons k (cleanObjectForPrisma v) (cleanFields rest)

end

/-- One step of the transformPrisma field loop (src/utils.ts lines 16-41):
none means the key is deleted from the record. Branch order follows the
source: functions are deleted, byte arrays become buffers, numbers and Longs
go through toNumber, objects are either Buffer-tagged (buffers for the two
dedicated binary columns, base64 strings elsewhere) or recursively cleaned,
and nullish values are deleted when removeNullable is set. Any other
primitive, including a symbol, falls through every branch unchanged. -/
def transformField (key : String) (v : JsVal) (removeNullable : Bool) : Option JsVal :=
  match v with
  | .vFunc _ => none
  | .vBuffer bs => some (.vBuffer bs)
  | .vNum n => some (.vNum n)
  | .vLong low high u => some (.vNum (longToNumber low high u))
  | .vObj fields =>
      if bufferTagged fields then
        if key = "messageSecret" ∨ key = "mediaCiphertextSha256" then
          some (.vBuffer (bufferDataBytes fields))
        else some (.vStr (b64Encode (bufferDataBytes fields)))
      else some (cleanObjectForPrisma (.vObj fields))
  | .vArr items => some (cleanObjectForPrisma (.vArr items))
  | .vDate iso => some (cleanObjectForPrisma (.vDate iso))
  | .vNull => if removeNullable then none else some .vNull
  | .vUndef => if removeNullable then none else some .vUndef
  | .vStr s => some (.vStr s)
  | .vBool b => some (.vBool b)
  | .vSym t => some (.vSym t)

/-- transformPrisma from src/utils.ts lines 9-44: apply the field loop to
every top-level entry of the record. -/
def transformPrisma (fields : JsFields) (removeNullable : Bool) : JsFields :=
  match fields with
  | .nil => .nil
  | .cons k v rest =>
      match transformField k v removeNullable with
      | none => transformPrisma rest removeNullable
      | some v' => .cons k v' (transformPrisma rest removeNullable)

/-! ## Deep predicates over values, used to state the sanitizer properties -/

mutual

/-- A callable value occurs somewhere in the value. -/
def hasFunc : JsVal → Bool
  | .vFunc _ => true
  | .vArr items => hasFuncList items
  | .vObj fields => hasFuncFields fields
  | _ => false

def hasFuncList : JsList → Bool
  | .nil => false
  | .cons v rest => hasFunc v || hasFuncList rest

def hasFuncFields : JsFields → Bool
  | .nil => false
  | .cons _ v rest => hasFunc v || hasFuncFields rest

end

mutual

/-- A symbol value occurs somewhere in the value. -/
def hasSym : JsVal → Bool
  | .vSym _ => true
  | .vArr items => hasSymList items
  | .vObj fields => hasSymFields fields
  | _ => false

def hasSymList : JsList → Bool
  | .nil => false
  | .cons v rest => hasSym v || hasSymList rest

def hasSymFields : JsFields → Bool
  | .nil => false
  | .cons _ v rest => hasSym v || hasSymFields rest

end

/-- A symbol occurs strictly inside the value (the value itself being a bare
symbol does not count). -/
def hasSymUnder : JsVal → Bool
  | .vSym _ => false
  | v => hasSym v

mutual

/-- No recognized special encoding occurs anywhere: no date, Long instance or
buffer, and no object recognized as a byte dictionary, a Buffer-tagged object
or a Long-shaped object. -/
def noSpecial : JsVal → Bool
  | .vDate _ => false
  | .vLong _ _ _ => false
  | .vBuffer _ => false
  | .vArr items => noSpecialList items
  | .vObj fields =>
      !isByteDict fields && !bufferTagged fields && !isLongLike fields &&
      noSpecialFields fields
  | _ => true

def noSpecialList : JsList → Bool
  | .nil => true
  | .cons v rest => noSpecial v && noSpecialList rest

def noSpecialFields : JsFields → Bool
  | .nil => true
  | .cons _ v rest => noSpecial v && noSpecialFields rest

end

/-- Values whose cleaned form is undefined, hence dropped from arrays and
objects: functions, symbols and undefined itself. -/
def erasedDropped : JsVal → Bool
  | .vFunc _ => true
  | .vSym _ => true
  | .vUndef => true
  | _ => false

mutual

/-- Reference form of recursive cleaning on special-encoding-free values:
functions and symbols become undefined, arrays and objects drop entries
whose value is a function, a symbol or undefined, and every other value is
kept in place. Used to state that the sanitizer preserves all other
values. -/
def eraseNonData : JsVal → JsVal
  | .vFunc _ => .vUndef
  | .vSym _ => .vUndef
  | .vArr items => .vArr (eraseList items)
  | .vObj fields => .vObj (eraseFields fields)
  | v => v

def eraseList : JsList → JsList
  | .nil => .nil
  | .cons v rest =>
      if erasedDropped v then eraseList rest
      else .cons (eraseNonData v) (eraseList rest)

def eraseFields : JsFields → JsFields
  | .nil => .nil
  | .cons k v rest =>
      if erasedDropped v then eraseFields rest
      else .cons k (eraseNonData v) (eraseFields rest)

end

/-- Reference form of the whole record sanitizer on special-encoding-free
records with removeNullable set: drop function and nullish fields, erase
non-data values inside the rest. -/
def transformErased : JsFields → JsFields
  | .nil => .nil
  | .cons k v rest =>
      match v with
      | .vFunc _ => transformErased rest
      | .vNull => transformErased rest
      | .vUndef => transformErased rest
      | .vSym t => .cons k (.vSym t) (transformErased rest)
      | v => .cons k (eraseNonData v) (transformErased rest)

/-- The cleaned form of a value is undefined exactly for functions, symbols
and undefined. -/
theorem clean_isUndef_iff : ∀ v : JsVal,
    (cleanObjectForPrisma v).isUndef = erasedDropped v := by
  intro v
  cases v <;> simp only [cleanObjectForPrisma, erasedDropped, JsVal.isUndef]
  case vObj fields =>
    cases h1 : isByteDict fields <;> cases h2 : bufferTagged fields <;>
      cases h3 : isLongLike fields <;> simp [h1, h2, h3, JsVal.isUndef]

mutual

/-- Cleaning removes every callable and every symbol, at any depth. -/
theorem clean_no_funcsym : ∀ v : JsVal,
    hasFunc (cleanObjectForPrisma v) = false ∧ hasSym (cleanObjectForPrisma v) = false
  | .vNull => by simp [cleanObjectForPrisma, hasFunc, hasSym]
  | .vUndef => by simp [cleanObjectForPrisma, hasFunc, hasSym]
  | .vFunc _ => by simp [cleanObjectForPrisma, hasFunc, hasSym]
  | .vSym _ => by simp [cleanObjectForPrisma, hasFunc, hasSym]
  | .vDate _ => by simp [cleanObjectForPrisma, hasFunc, hasSym]
  | .vBuffer _ => by simp [cleanObjectForPrisma, hasFunc, hasSym]
  | .vLong _ _ _ => by simp [cleanObjectForPrisma, hasFunc, hasSym]
  | .vStr _ => by simp [cleanObjectForPrisma, hasFunc, hasSym]
  | .vNum _ => by simp [cleanObjectForPrisma, hasFunc, hasSym]
  | .vBool _ => by simp [cleanObjectForPrisma, hasFunc, hasSym]
  | .vArr items => by
      have ih := cleanItems_no_funcsym items
      simp [cleanObjectForPrisma, hasFunc, hasSym, ih.1, ih.2]
  | .vObj fields => by
      have ih := cleanFields_no_funcsym fields
      cases h1 : isByteDict fields <;> cases h2 : bufferTagged fields <;>
        cases h3 : isLongLike fields <;>
        simp [cleanObjectForPrisma, h1, h2, h3, hasFunc, hasSym, ih.1, ih.2]

theorem cleanItems_no_funcsym : ∀ l : JsList,
    hasFuncList (cleanItems l) = false ∧ hasSymList (cleanItems l) = false
  | .nil => by simp [cleanItems, hasFuncList, hasSymList]
  | .cons v rest => by
      have ihv := clean_no_funcsym v
      have ihr := cleanItems_no_funcsym rest
      cases h : (cleanObjectForPrisma v).isUndef <;>
        simp [cleanItems, h, hasFuncList, hasSymList, ihv.1, ihv.2, ihr.1, ihr.2]

theorem cleanFields_no_funcsym : ∀ fs : JsFields,
    hasFuncFields (cleanFields fs) = false ∧ hasSymFields (cleanFields fs) = false
  | .nil => by simp [cleanFields, hasFuncFields, hasSymFields]
  | .cons _ v rest => by
      have ihv := clean_no_funcsym v
      have ihr := cleanFields_no_funcsym rest
      cases h : (cleanObjectForPrisma v).isUndef <;>
        simp [cleanFields, h, hasFuncFields, hasSymFields, ihv.1, ihv.2, ihr.1, ihr.2]

end

/-- A value without symbols has none strictly inside either. -/
theorem hasSymUnder_of_not_hasSym (v : JsVal) (h : hasSym v = false) :
    hasSymUnder v = false := by
  cases v <;> simp_all [hasSym, hasSymUnder]

mutual

/-- On special-encoding-free values, cleaning is exactly non-data erasure. -/
theorem clean_eq_erase : ∀ v : JsVal, noSpecial v = true →
    cleanObjectForPrisma v = eraseNonData v
  | .vNull => by simp [cleanObjectForPrisma, eraseNonData]
  | .vUndef => by simp [cleanObjectForPrisma, eraseNonData]
  | .vFunc _ => by simp [cleanObjectForPrisma, eraseNonData]
  | .vSym _ => by simp [cleanObjectForPrisma, eraseNonData]
  | .vDate _ => by simp [noSpecial]
  | .vBuffer _ => by simp [noSpecial]
  | .vLong _ _ _ => by simp [noSpecial]
  | .vStr _ => by simp [cleanObjectForPrisma, eraseNonData]
  | .vNum _ => by simp [cleanObjectForPrisma, eraseNonData]
  | .vBool _ => by simp [cleanObjectForPrisma, eraseNonData]
  | .vArr items => by
      intro h
      simp only [noSpecial] at h
      simp [cleanObjectForPrisma, eraseNonData, cleanItems_eq_erase items h]
  | .vObj fields => by
      intro h
      simp only [noSpecial, Bool.and_eq_true, Bool.not_eq_true'] at h
      obtain ⟨⟨⟨h1, h2⟩, h3⟩, h4⟩ := h
      simp [cleanObjectForPrisma, eraseNonData, h1, h2, h3, cleanFields_eq_erase fields h4]

theorem cleanItems_eq_erase : ∀ l : JsList, noSpecialList l = true →
    cleanItems l = eraseList l
  | .nil => by simp [cleanItems, eraseList]
  | .cons v rest => by
      intro h
      simp only [noSpecialList, Bool.and_eq_true] at h
      simp only [cleanItems, eraseList, clean_isUndef_iff]
      cases hd : erasedDropped v
      · simp [hd, clean_eq_erase v h.1, cleanItems_eq_erase rest h.2]
      · simp [hd, cleanItems_eq_erase rest h.2]

theorem cleanFields_eq_erase : ∀ fs : JsFields, noSpecialFields fs = true →
    cleanFields fs = eraseFields fs
  | .nil => by simp [cleanFields, eraseFields]
  | .cons _ v rest => by
      intro h
      simp only [noSpecialFields, Bool.and_eq_true] at h
      simp only [cleanFields, eraseFields, clean_isUndef_iff]
      cases hd : erasedDropped v
      · simp [hd, clean_eq_erase v h.1, cleanFields_eq_erase rest h.2]
      · simp [hd, cleanFields_eq_erase rest h.2]

end

/-- Every field value emitted by the transformPrisma loop is free of
callables at any depth, and free of symbols strictly below itself. -/
theorem transformField_no_funcsym (k : String) (v : JsVal) (rn : Bool) (v' : JsVal)
    (h : transformField k v rn = some v') :
    hasFunc v' = false ∧ hasSymUnder v' = false := by
  have hclean : ∀ w : JsVal, v' = cleanObjectForPrisma w →
      hasFunc v' = false ∧ hasSymUnder v' = false := by
    intro w hw
    have hc := clean_no_funcsym w
    exact ⟨hw ▸ hc.1, hw ▸ hasSymUnder_of_not_hasSym _ hc.2⟩
  cases v with
  | vFunc t => simp [transformField] at h
  | vBuffer bs =>
      simp only [transformField, Option.some.injEq] at h
      simp [← h, hasFunc, hasSymUnder, hasSym]
  | vNum n =>
      simp only [transformField, Option.some.injEq] at h
      simp [← h, hasFunc, hasSymUnder, hasSym]
  | vLong l hi u =>
      simp only [transformField, Option.some.injEq] at h
      simp [← h, hasFunc, hasSymUnder, hasSym]
  | vObj fields =>
      simp only [transformField] at h
      split at h
      · split at h <;> simp only [Option.some.injEq] at h <;>
          simp [← h, hasFunc, hasSymUnder, hasSym]
      · simp only [Option.some.injEq] at h
        exact hclean _ h.symm
  | vArr items =>
      simp only [transformField, Option.some.injEq] at h
      exact hclean _ h.symm
  | vDate iso =>
      simp only [transformField, Option.some.injEq] at h
      exact hclean _ h.symm
  | vNull =>
      simp only [transformField] at h
      split at h
      · simp at h
      · simp only [Option.some.injEq] at h; simp [← h, hasFunc, hasSymUnder, hasSym]
  | vUndef =>
      simp only [transformField] at h
      split at h
      · simp at h
      · simp only [Option.some.injEq] at h; simp [← h, hasFunc, hasSymUnder, hasSym]
  | vStr s =>
      simp only [transformField, Option.some.injEq] at h
      simp [← h, hasFunc, hasSymUnder, hasSym]
  | vBool b =>
      simp only [transformField, Option.some.injEq] at h
      simp [← h, hasFunc, hasSymUnder, hasSym]
  | vSym t =>
      simp only [transformField, Option.some.injEq] at h
      simp [← h, hasFunc, hasSymUnder, hasSym]

/-- The sanitized record contains no callables at any depth and no symbols
strictly below the top-level field values. -/
theorem transformPrisma_no_funcsym : ∀ (fields : JsFields) (rn : Bool),
    hasFuncFields (transformPrisma fields rn) = false ∧
    (transformPrisma fields rn).all (fun _ v => !hasSymUnder v) = true
  | .nil, rn => by simp [transformPrisma, hasFuncFields, JsFields.all]
  | .cons k v rest, rn => by
      have ihr := transformPrisma_no_funcsym rest rn
      simp only [transformPrisma]
      cases hf : transformField k v rn with
      | none => exact ihr
      | some v' =>
          have hv := transformField_no_funcsym k v rn v' hf
          simp [hasFuncFields, JsFields.all, hv.1, hv.2, ihr.1, ihr.2]

/-- On special-encoding-free records, the record sanitizer is exactly the
reference erasure: every non-dropped value is preserved in place. -/
theorem transformPrisma_eq_erased : ∀ fields : JsFields, noSpecialFields fields = true →
    transformPrisma fields true = transformErased fields
  | .nil => by simp [transformPrisma, transformErased]
  | .cons k v rest => by
      intro h
      simp only [noSpecialFields, Bool.and_eq_true] at h
      have ihr := transformPrisma_eq_erased rest h.2
      have hv := h.1
      cases v with
      | vFunc t => simp [transformPrisma, transformField, transformErased, ihr]
      | vNull => simp [transformPrisma, transformField, transformErased, ihr]
      | vUndef => simp [transformPrisma, transformField, transformErased, ihr]
      | vSym t => simp [transformPrisma, transformField, transformErased, ihr]
      | vStr s => simp [transformPrisma, transformField, transformErased, eraseNonData, ihr]
      | vNum n => simp [transformPrisma, transformField, transformErased, eraseNonData, ihr]
      | vBool b => simp [transformPrisma, transformField, transformErased, eraseNonData, ihr]
      | vDate iso => exact absurd hv (by simp [noSpecial])
      | vBuffer bs => exact absurd hv (by simp [noSpecial])
      | vLong l hi u => exact absurd hv (by simp [noSpecial])
      | vArr items =>
          have hce := clean_eq_erase (.vArr items) hv
          simp [transformPrisma, transformField, transformErased, hce, ihr]
      | vObj fields2 =>
          have hv' := hv
          simp only [noSpecial, Bool.and_eq_true, Bool.not_eq_true'] at hv'
          obtain ⟨⟨⟨h1, h2⟩, h3⟩, h4⟩ := hv'
          have hce := clean_eq_erase (.vObj fields2) hv
          simp [transformPrisma, transformField, h2, hce, transformErased, ihr]

/-! ## Claim C8: sanitizer purity -/

/-- C8 (amended). Sanitizer purity for transformPrisma: the function is total
(never throws), its output contains no callable values at any depth and no
symbol values strictly below the top-level field values, and on records free
of the recognized special encodings (dates, Long boxes, byte dictionaries,
Buffer-tagged objects, binary buffers) it equals the reference erasure, so
every other value — in particular every string, number and boolean — is
preserved unchanged at its position; offending keys are removed entirely,
not replaced by placeholders. The original claim's stronger form — zero
symbol values at any depth — fails: a symbol stored directly as a top-level
field value falls through every branch of the field loop and is kept. -/
theorem C8_sanitizer_purity (fields : JsFields) (rn : Bool) :
    hasFuncFields (transformPrisma fields rn) = false ∧
    (transformPrisma fields rn).all (fun _ v => !hasSymUnder v) = true ∧
    (noSpecialFields fields = true → transformPrisma fields true = transformErased fields) :=
  ⟨(transformPrisma_no_funcsym fields rn).1, (transformPrisma_no_funcsym fields rn).2,
    transformPrisma_eq_erased fields⟩

/-- C8 witness: a concrete special-encoding-free record with a function field
satisfies the amended purity statement. -/
theorem C8_sanitizer_purity_witness :
    noSpecialFields (.cons "a" (.vStr "x") (.cons "f" (.vFunc 0) .nil)) = true ∧
    hasFuncFields (transformPrisma (.cons "a" (.vStr "x") (.cons "f" (.vFunc 0) .nil)) true)
      = false ∧
    transformPrisma (.cons "a" (.vStr "x") (.cons "f" (.vFunc 0) .nil)) true =
      transformErased (.cons "a" (.vStr "x") (.cons "f" (.vFunc 0) .nil)) :=
  ⟨by decide,
    (C8_sanitizer_purity (.cons "a" (.vStr "x") (.cons "f" (.vFunc 0) .nil)) true).1,
    (C8_sanitizer_purity (.cons "a" (.vStr "x") (.cons "f" (.vFunc 0) .nil)) true).2.2
      (by decide)⟩

/-- C8 counterexample: on the record with fields f (a function), s (a symbol)
and a (a nested byte dictionary holding the number 65), the sanitized output
still contains a symbol value, refuting the claimed zero-symbols-at-any-depth
property; the number 65 is also not preserved at its path, the enclosing
dictionary having been collapsed to a base64 string. -/
theorem C8_counterexample :
    transformPrisma (.cons "f" (.vFunc 0) (.cons "s" (.vSym 0)
        (.cons "a" (.vObj (.cons "0" (.vNum 65) .nil)) .nil))) true =
      .cons "s" (.vSym 0) (.cons "a" (.vStr "QQ==") .nil) ∧
    hasSymFields (transformPrisma (.cons "f" (.vFunc 0) (.cons "s" (.vSym 0)
        (.cons "a" (.vObj (.cons "0" (.vNum 65) .nil)) .nil))) true) = true := by
  constructor <;> decide

/-! ## Claim C9: byte-encoding round-trip -/

/-- Inserting keeps only the given entry and the old ones. -/
theorem mem_insertByKey {p q : String × Int} : ∀ {l : List (String × Int)},
    q ∈ insertByKey p l → q = p ∨ q ∈ l := by
  intro l
  induction l with
  | nil => simp [insertByKey]
  | cons r rest ih =>
      simp only [insertByKey]
      split
      · intro h
        rcases List.mem_cons.mp h with h | h
        · exact Or.inl h
        · exact Or.inr h
      · intro h
        rcases List.mem_cons.mp h with h | h
        · exact Or.inr (List.mem_cons.mpr (Or.inl h))
        · rcases ih h with h | h
          · exact Or.inl h
          · exact Or.inr (List.mem_cons.mpr (Or.inr h))

theorem mem_sortByNumKey {q : String × Int} : ∀ {l : List (String × Int)},
    q ∈ sortByNumKey l → q ∈ l := by
  intro l
  induction l with
  | nil => simp [sortByNumKey]
  | cons r rest ih =>
      simp only [sortByNumKey]
      intro h
      rcases mem_insertByKey h with h | h
      · exact List.mem_cons.mpr (Or.inl h)
      · exact List.mem_cons.mpr (Or.inr (ih h))

/-- Insertion preserves ascending order by parsed key. -/
theorem insertByKey_pairwise (p : String × Int) : ∀ (l : List (String × Int)),
    l.Pairwise (fun a b => digitsToNat a.1 ≤ digitsToNat b.1) →
    (insertByKey p l).Pairwise (fun a b => digitsToNat a.1 ≤ digitsToNat b.1) := by
  intro l
  induction l with
  | nil => intro _; simp [insertByKey]
  | cons q rest ih =>
      intro h
      rw [List.pairwise_cons] at h
      rw [insertByKey]
      split
      · rename_i hle
        rw [List.pairwise_cons]
        refine ⟨?_, List.pairwise_cons.mpr h⟩
        intro a ha
        rcases List.mem_cons.mp ha with rfl | ha'
        · exact hle
        · exact le_trans hle (h.1 a ha')
      · rename_i hgt
        rw [List.pairwise_cons]
        refine ⟨?_, ih h.2⟩
        intro a ha
        rcases mem_insertByKey ha with rfl | ha'
        · omega
        · exact h.1 a ha'

/-- The sort produces entries in ascending parsed-key order. -/
theorem sortByNumKey_pairwise : ∀ l : List (String × Int),
    (sortByNumKey l).Pairwise (fun a b => digitsToNat a.1 ≤ digitsToNat b.1) := by
  intro l
  induction l with
  | nil => simp [sortByNumKey]
  | cons p rest ih => exact insertByKey_pairwise p _ ih

/-- A byte after ToUint8 is always below 256. -/
theorem intToByte_lt (n : Int) : intToByte n < 256 := by
  unfold intToByte
  omega

/-- ToUint8 is the identity on the byte range. -/
theorem intToByte_of_range (n : Int) (h0 : 0 ≤ n) (h1 : n < 256) :
    intToByte n = n.toNat := by
  unfold intToByte
  omega

/-- A key present in a record satisfies any property all keys satisfy. -/
theorem lookup_key_prop (k : String) (p : String → Bool) :
    ∀ (fs : JsFields) (v : JsVal),
    fs.lookup k = some v → fs.all (fun k' _ => p k') = true → p k = true
  | .nil, v => by intro hl _; simp [JsFields.lookup] at hl
  | .cons k' v' rest, v => by
      intro hl hall
      simp only [JsFields.lookup] at hl
      simp only [JsFields.all, Bool.and_eq_true] at hall
      split at hl
      · rename_i he; exact he ▸ hall.1
      · exact lookup_key_prop k p rest v hl hall.2

/-- A byte dictionary is never recognized as a Buffer-tagged object: all its
keys are digit strings, so it has no type property. -/
theorem byteDict_not_bufferTagged (fields : JsFields) (h : isByteDict fields = true) :
    bufferTagged fields = false := by
  simp only [isByteDict, Bool.and_eq_true] at h
  obtain ⟨⟨_, hkeys⟩, _⟩ := h
  cases hbt : bufferTagged fields
  · rfl
  · exfalso
    simp only [bufferTagged] at hbt
    cases ht : fields.lookup "type" with
    | none => rw [ht] at hbt; exact absurd hbt (by simp)
    | some tv =>
        have := lookup_key_prop "type" (fun k => isDigitString k) fields tv ht hkeys
        exact absurd this (by decide)

/-- Embedding of a JS number array. -/
def jsNumList : List Int → JsList
  | [] => .nil
  | n :: rest => .cons (.vNum n) (jsNumList rest)

/-- A serialized-Buffer object: type tag Buffer plus a numeric data array. -/
def bufferTagObj (ns : List Int) : JsFields :=
  .cons "type" (.vStr "Buffer") (.cons "data" (.vArr (jsNumList ns)) .nil)

theorem arrBytes_jsNumList : ∀ ns : List Int, arrBytes (jsNumList ns) = ns.map intToByte
  | [] => by simp [jsNumList, arrBytes]
  | n :: rest => by simp [jsNumList, arrBytes, arrBytes_jsNumList rest]

/-- C9. Byte-encoding round-trip. For every object recognized as a numeric-
keyed byte dictionary, the sanitizer (both the recursive cleaner and the
top-level field loop) converts it to a base64 string; when the values are
bytes, that string decodes back to exactly the value sequence in ascending
parsed-key order. A Buffer-tagged object with byte values likewise becomes a
base64 string decoding to the listed bytes, except under the dedicated
binary keys messageSecret and mediaCiphertextSha256, where it becomes a
native buffer with the same bytes. -/
theorem C9_byte_roundtrip (fields : JsFields) (k : String) (ns : List Int) :
    (isByteDict fields = true →
      cleanObjectForPrisma (.vObj fields) = .vStr (b64Encode (dictBytes fields)) ∧
      transformField k (.vObj fields) true = some (.vStr (b64Encode (dictBytes fields))) ∧
      ((∀ p ∈ dictEntries fields, 0 ≤ p.2 ∧ p.2 < 256) →
        b64Decode (b64Encode (dictBytes fields)) =
          (sortByNumKey (dictEntries fields)).map (fun p => p.2.toNat) ∧
        (sortByNumKey (dictEntries fields)).Pairwise
          (fun a b => digitsToNat a.1 ≤ digitsToNat b.1))) ∧
    ((∀ n ∈ ns, 0 ≤ n ∧ n < 256) →
      (¬(k = "messageSecret" ∨ k = "mediaCiphertextSha256") →
        transformField k (.vObj (bufferTagObj ns)) true =
          some (.vStr (b64Encode (ns.map Int.toNat))) ∧
        b64Decode (b64Encode (ns.map Int.toNat)) = ns.map Int.toNat) ∧
      ((k = "messageSecret" ∨ k = "mediaCiphertextSha256") →
        transformField k (.vObj (bufferTagObj ns)) true =
          some (.vBuffer (ns.map Int.toNat)))) := by
  have hdecode : ∀ bs : List Nat, (∀ b ∈ bs, b < 256) → b64Decode (b64Encode bs) = bs := by
    intro bs hbs
    show b64DecodeChars (String.mk (b64EncodeBytes bs)).toList = bs
    have : (String.mk (b64EncodeBytes bs)).toList = b64EncodeBytes bs := rfl
    rw [this, b64_decode_encode bs hbs]
  have hbytes : bufferDataBytes (bufferTagObj ns) = ns.map intToByte := by
    simp [bufferDataBytes, bufferTagObj, JsFields.lookup, arrBytes_jsNumList]
  have hbt : bufferTagged (bufferTagObj ns) = true := by
    simp [bufferTagged, bufferTagObj, JsFields.lookup]
  constructor
  · intro hbd
    have hnotbt := byteDict_not_bufferTagged fields hbd
    refine ⟨by simp [cleanObjectForPrisma, hbd], ?_, ?_⟩
    · simp [transformField, hnotbt, cleanObjectForPrisma, hbd]
    · intro hrange
      have hmap : dictBytes fields = (sortByNumKey (dictEntries fields)).map (fun p => p.2.toNat) := by
        unfold dictBytes
        refine List.map_congr_left ?_
        intro p hp
        have hmem := mem_sortByNumKey hp
        have := hrange p hmem
        exact intToByte_of_range p.2 this.1 this.2
      have hlt : ∀ b ∈ dictBytes fields, b < 256 := by
        intro b hb
        unfold dictBytes at hb
        rcases List.mem_map.mp hb with ⟨p, _, rfl⟩
        exact intToByte_lt p.2
      exact ⟨(hdecode _ hlt).trans hmap, sortByNumKey_pairwise _⟩
  · intro hrange
    have hmap : ns.map intToByte = ns.map Int.toNat := by
      refine List.map_congr_left ?_
      intro n hn
      exact intToByte_of_range n (hrange n hn).1 (hrange n hn).2
    have hlt : ∀ b ∈ ns.map Int.toNat, b < 256 := by
      intro b hb
      rcases List.mem_map.mp hb with ⟨n, hn, rfl⟩
      have := hrange n hn
      omega
    constructor
    · intro hk
      refine ⟨?_, hdecode _ hlt⟩
      simp [transformField, hbt, hk, hbytes, hmap]
    · intro hk
      simp [transformField, hbt, hk, hbytes, hmap]

/-- C9 witness: the two-byte dictionary with entries 0 mapped to 65 and
1 mapped to 66 round-trips through base64, and a Buffer-tagged object with
the same bytes becomes the expected base64 string under an ordinary key and
a native buffer under the messageSecret key. -/
theorem C9_byte_roundtrip_witness :
    isByteDict (.cons "0" (.vNum 65) (.cons "1" (.vNum 66) .nil)) = true ∧
    b64Decode (b64Encode (dictBytes (.cons "0" (.vNum 65) (.cons "1" (.vNum 66) .nil)))) =
      [65, 66] ∧
    transformField "key" (.vObj (bufferTagObj [65, 66])) true =
      some (.vStr "QUI=") ∧
    transformField "messageSecret" (.vObj (bufferTagObj [65, 66])) true =
      some (.vBuffer [65, 66]) := by
  have h := C9_byte_roundtrip (.cons "0" (.vNum 65) (.cons "1" (.vNum 66) .nil)) "key" [65, 66]
  have h2 := C9_byte_roundtrip (.cons "0" (.vNum 65) (.cons "1" (.vNum 66) .nil))
    "messageSecret" [65, 66]
  refine ⟨by decide, ?_, ?_, ?_⟩
  · exact ((h.1 (by decide)).2.2 (by decide)).1.trans (by decide)
  · exact ((h.2 (by decide)).1 (by decide)).1.trans (by decide)
  · exact (h2.2 (by decide)).2 (by decide)

/-! ## Chat store and the chat event handlers (src/handlers/chat.ts)

The Chat table is modelled as a list of rows over all sessions. A row keeps
its identity pair, the unreadCount column (nullable integer, the one column
with non-overwrite update semantics) and the remaining columns as an opaque
field map. -/

structure ChatRow where
  sessionId : String
  id : String
  unreadCount : Option Int
  data : JsFields
  deriving DecidableEq, Repr

/-- The unique-key match used by the sessionId_id where clauses. -/
def chatKeyEq (S cid : String) (r : ChatRow) : Bool := r.sessionId == S && r.id == cid

/-- Set one column of a field map, keeping field order. -/
def setField : JsFields → String → JsVal → JsFields
  | .nil, k, v => .cons k v .nil
  | .cons k' v' rest, k, v =>
      if k' = k then .cons k' v rest else .cons k' v' (setField rest k v)

/-- Overwrite the base columns with every entry of the update record. -/
def mergeFields : JsFields → JsFields → JsFields
  | base, .nil => base
  | base, .cons k v rest => mergeFields (setField base k v) rest

/-- The unreadCount update expression from the chats.update handler
(src/handlers/chat.ts lines 84-90): a positive number becomes an atomic
increment (null stays null under SQL addition), zero or negative becomes an
overwrite, and a missing or non-numeric value leaves the column untouched
(the key is set to undefined, which the storage layer skips). -/
def applyUnread (stored : Option Int) (incoming : Option JsVal) : Option Int :=
  match incoming with
  | some (.vNum n) => if 0 < n then stored.map (· + n) else some n
  | _ => stored

/-- Effect of the upsert's update path on an existing row: every column from
the sanitized record is written, except unreadCount which follows
applyUnread. -/
def chatRowUpdate (r : ChatRow) (data : JsFields) : ChatRow :=
  { r with
    data := mergeFields r.data data,
    unreadCount := applyUnread r.unreadCount (data.lookup "unreadCount") }

/-- Effect of the upsert's create path: a fresh row for the key, with
unreadCount taken verbatim from the record when numeric. -/
def chatRowCreate (S cid : String) (data : JsFields) : ChatRow :=
  { sessionId := S, id := cid,
    unreadCount := match data.lookup "unreadCount" with
      | some (.vNum n) => some n
      | _ => none,
    data := data }

/-- prisma.chat.upsert on the sessionId_id key: update the matching row if
present, create otherwise. -/
def chatUpsertWrite (S cid : String) (data : JsFields) (store : List ChatRow) : List ChatRow :=
  if store.any (chatKeyEq S cid) then
    store.map (fun r => if chatKeyEq S cid r then chatRowUpdate r data else r)
  else store ++ [chatRowCreate S cid data]

/-- One iteration of the chats.update loop (src/handlers/chat.ts lines
65-98): skip records with no id (JS falsy, hence also the empty string),
otherwise sanitize and upsert under the sessionId_id key. -/
def chatUpdateOne (S : String) (store : List ChatRow) (upd : JsFields) : List ChatRow :=
  match upd.lookup "id" with
  | some (.vStr cid) =>
      if cid = "" then store
      else chatUpsertWrite S cid (transformPrisma upd true) store
  | _ => store

/-- The chats.update handler over a list of update records. -/
def chatsUpdateHandler (S : String) (upds : List JsFields) (store : List ChatRow) :
    List ChatRow :=
  upds.foldl (chatUpdateOne S) store

/-- The chats.delete handler (src/handlers/chat.ts lines 100-108):
deleteMany with a where clause on id only — the clause carries no sessionId
condition. -/
def chatsDel (ids : List String) (store : List ChatRow) : List ChatRow :=
  store.filter (fun r => !(ids.contains r.id))

/-- find? commutes with a map that preserves the predicate. -/
theorem find?_map_pred {α : Type} (p : α → Bool) (f : α → α) (l : List α)
    (hf : ∀ x, p (f x) = p x) : (l.map f).find? p = (l.find? p).map f := by
  induction l with
  | nil => simp
  | cons x rest ih =>
      simp only [List.map_cons, List.find?]
      rw [hf x]
      cases h : p x
      · simpa using ih
      · simp

/-! ## Claim C1: chats.update unreadCount semantics -/

/-- C1. For a chats.update event on an existing Chat row: a positive numeric
unreadCount in the sanitized record increments the stored value, a zero or
negative numeric unreadCount overwrites it, and a record with no numeric
unreadCount leaves it unchanged. -/
theorem C1_chat_update_unread (S : String) (store : List ChatRow) (upd : JsFields)
    (cid : String) (r : ChatRow) (u : Int)
    (hid : upd.lookup "id" = some (.vStr cid)) (hcid : cid ≠ "")
    (hfind : store.find? (chatKeyEq S cid) = some r) (hu : r.unreadCount = some u) :
    (∀ n : Int, (transformPrisma upd true).lookup "unreadCount" = some (.vNum n) → 0 < n →
      ((chatsUpdateHandler S [upd] store).find? (chatKeyEq S cid)).map ChatRow.unreadCount =
        some (some (u + n))) ∧
    (∀ n : Int, (transformPrisma upd true).lookup "unreadCount" = some (.vNum n) → n ≤ 0 →
      ((chatsUpdateHandler S [upd] store).find? (chatKeyEq S cid)).map ChatRow.unreadCount =
        some (some n)) ∧
    ((∀ n : Int, (transformPrisma upd true).lookup "unreadCount" ≠ some (.vNum n)) →
      ((chatsUpdateHandler S [upd] store).find? (chatKeyEq S cid)).map ChatRow.unreadCount =
        some (some u)) := by
  have hmem := List.mem_of_find?_eq_some hfind
  have hpr : chatKeyEq S cid r = true := List.find?_some hfind
  have hany : store.any (chatKeyEq S cid) = true := List.any_eq_true.mpr ⟨r, hmem, hpr⟩
  set data := transformPrisma upd true with hdata
  have hstep : chatsUpdateHandler S [upd] store =
      store.map (fun x => if chatKeyEq S cid x then chatRowUpdate x data else x) := by
    simp [chatsUpdateHandler, chatUpdateOne, hid, hcid, chatUpsertWrite, hany, ← hdata]
  have hpres : ∀ x : ChatRow,
      chatKeyEq S cid (if chatKeyEq S cid x then chatRowUpdate x data else x) =
        chatKeyEq S cid x := by
    intro x
    cases hx : chatKeyEq S cid x
    · simp [hx]
    · simpa [hx, chatRowUpdate, chatKeyEq] using hx
  have hfind2 : ((chatsUpdateHandler S [upd] store).find? (chatKeyEq S cid)) =
      some (chatRowUpdate r data) := by
    rw [hstep, find?_map_pred _ _ _ hpres, hfind]
    simp [hpr]
  refine ⟨?_, ?_, ?_⟩
  · intro n hn hpos
    rw [hfind2]
    simp [chatRowUpdate, applyUnread, hn, hpos, hu]
  · intro n hn hnonpos
    rw [hfind2]
    have hng : ¬ 0 < n := by omega
    simp [chatRowUpdate, applyUnread, hn, hng]
  · intro hno
    rw [hfind2]
    have happ : applyUnread r.unreadCount (data.lookup "unreadCount") = r.unreadCount := by
      cases hl : data.lookup "unreadCount" with
      | none => simp [applyUnread]
      | some v =>
          cases v with
          | vNum n => exact absurd hl (hno n)
          | vStr s => simp [applyUnread]
          | vBool b => simp [applyUnread]
          | vNull => simp [applyUnread]
          | vUndef => simp [applyUnread]
          | vFunc t => simp [applyUnread]
          | vSym t => simp [applyUnread]
          | vLong l h un => simp [applyUnread]
          | vBuffer bs => simp [applyUnread]
          | vDate iso => simp [applyUnread]
          | vArr items => simp [applyUnread]
          | vObj fs => simp [applyUnread]
    rw [hu] at happ
    simp [chatRowUpdate, hu, happ]

/-- C1 witness: a chat at unreadCount 3 receiving an update carrying 2 ends
at 5, and receiving an explicit 0 ends at 0. -/
theorem C1_chat_update_unread_witness :
    ((chatsUpdateHandler "s1"
        [.cons "id" (.vStr "c1") (.cons "unreadCount" (.vNum 2) .nil)]
        [{ sessionId := "s1", id := "c1", unreadCount := some 3, data := .nil }]).find?
      (chatKeyEq "s1" "c1")).map ChatRow.unreadCount = some (some 5) ∧
    ((chatsUpdateHandler "s1"
        [.cons "id" (.vStr "c1") (.cons "unreadCount" (.vNum 0) .nil)]
        [{ sessionId := "s1", id := "c1", unreadCount := some 3, data := .nil }]).find?
      (chatKeyEq "s1" "c1")).map ChatRow.unreadCount = some (some 0) :=
  ⟨((C1_chat_update_unread "s1"
      [{ sessionId := "s1", id := "c1", unreadCount := some 3, data := .nil }]
      (.cons "id" (.vStr "c1") (.cons "unreadCount" (.vNum 2) .nil)) "c1"
      { sessionId := "s1", id := "c1", unreadCount := some 3, data := .nil } 3
      (by decide) (by decide) (by decide) (by decide)).1 2 (by decide) (by decide)).trans
        (by decide),
    ((C1_chat_update_unread "s1"
      [{ sessionId := "s1", id := "c1", unreadCount := some 3, data := .nil }]
      (.cons "id" (.vStr "c1") (.cons "unreadCount" (.vNum 0) .nil)) "c1"
      { sessionId := "s1", id := "c1", unreadCount := some 3, data := .nil } 3
      (by decide) (by decide) (by decide) (by decide)).2.1 0 (by decide) (by decide))⟩

/-! ## Claim C5: chats.delete session scoping -/

/-- C5. Evaluation of the chats.delete handler at the failing input: two
sessions A and B each hold a Chat row for the same id; the handler built for
session A receives a delete for that id and removes both rows, because its
where clause filters on id only and carries no sessionId condition. The
session-isolation claim of the spec requires session B's row to survive. -/
theorem C5_chats_delete_ignores_session :
    chatsDel ["x@s.whatsapp.net"]
      [{ sessionId := "A", id := "x@s.whatsapp.net", unreadCount := some 0, data := .nil },
       { sessionId := "B", id := "x@s.whatsapp.net", unreadCount := some 0, data := .nil }]
      = [] := by decide

/-- C9 counterexample: the claim quantifies over objects whose values are any
numbers, but a value outside the byte range does not round-trip: the
dictionary mapping key 0 to 300 sanitizes to the base64 of the single byte
44 (300 reduced mod 256), which decodes to 44, not 300. -/
theorem C9_counterexample :
    isByteDict (.cons "0" (.vNum 300) .nil) = true ∧
    cleanObjectForPrisma (.vObj (.cons "0" (.vNum 300) .nil)) =
      .vStr (b64Encode (dictBytes (.cons "0" (.vNum 300) .nil))) ∧
    b64Decode (b64Encode (dictBytes (.cons "0" (.vNum 300) .nil))) = [44] ∧
    b64Decode (b64Encode (dictBytes (.cons "0" (.vNum 300) .nil))) ≠ [300] := by
  refine ⟨by decide, by decide, by decide, by decide⟩

/-! ## Identity resolution (jidNormalizedUser and the handler resolvers)

jidNormalizedUser comes from the external messaging library (baileys), the
injected collaborator of the spec's IdentityResolver; it is embedded here
concretely: split at the first at-sign, drop the device suffix after a colon
in the user part, canonicalize the legacy server c.us, return the empty
string when there is no at-sign. -/

/-- JS string truthiness for an optional string: present and non-empty. -/
def strTruthy : Option String → Bool
  | some s => !s.isEmpty
  | none => false

/-- JS String.prototype.endsWith. -/
def strEndsWith (s suff : String) : Bool := List.isSuffixOf suff.toList s.toList

/-- Split a character list at the first occurrence of the separator. -/
def splitFirstChar (c : Char) : List Char → Option (List Char × List Char)
  | [] => none
  | x :: rest =>
      if x = c then some ([], rest)
      else match splitFirstChar c rest with
        | none => none
        | some (a, b) => some (x :: a, b)

/-- jidNormalizedUser on character lists. -/
def jidNormalizedUserL (jid : List Char) : List Char :=
  match splitFirstChar '@' jid with
  | none => []
  | some (userCombined, server) =>
      let user := userCombined.takeWhile (fun ch => ch ≠ ':')
      let server' := if server = "c.us".toList then "s.whatsapp.net".toList else server
      user ++ '@' :: server'

def jidNormalizedUser (jid : String) : String := String.mk (jidNormalizedUserL jid.toList)

/-- The alternate-address fields a chat or contact record may carry. -/
structure AliasHint where
  senderPn : Option String
  pnJid : Option String
  jid : Option String
  deriving DecidableEq, Repr

/-- JS or-chaining over optional strings: the first truthy one. -/
def firstTruthy : List (Option String) → Option String
  | [] => none
  | o :: rest => if strTruthy o then o else firstTruthy rest

/-- The embedded-candidate chain of resolveContactId: senderPn, pnJid, jid. -/
def hintCandidateContact : Option AliasHint → Option String
  | some h => firstTruthy [h.senderPn, h.pnJid, h.jid]
  | none => none

/-- The embedded-candidate chain of resolveChatId: pnJid, senderPn, jid. -/
def hintCandidateChat : Option AliasHint → Option String
  | some h => firstTruthy [h.pnJid, h.senderPn, h.jid]
  | none => none

/-- resolveContactId from src/handlers/contact.ts lines 13-23: for a hidden
(lid) address prefer an alternate address carried by the record, otherwise
consult the injected lookup keyed by the id, otherwise normalize the id
itself. -/
def resolveContactId (getJid : String → Option String) (id : Option String)
    (hint : Option AliasHint) : String :=
  match (if strEndsWith (id.getD "") "@lid" then hintCandidateContact hint else none) with
  | some cand => jidNormalizedUser cand
  | none => jidNormalizedUser ((getJid (id.getD "")).getD (id.getD ""))

/-- resolveChatId from the chat handler (src/unnamed/part_000 lines
204-214): same shape with the candidate preference pnJid, senderPn, jid. -/
def resolveChatId (getJid : String → Option String) (id : Option String)
    (hint : Option AliasHint) : String :=
  match (if strEndsWith (id.getD "") "@lid" then hintCandidateChat hint else none) with
  | some cand => jidNormalizedUser cand
  | none => jidNormalizedUser ((getJid (id.getD "")).getD (id.getD ""))

theorem splitFirstChar_not_mem {c : Char} : ∀ {l a b : List Char},
    splitFirstChar c l = some (a, b) → c ∉ a := by
  intro l
  induction l with
  | nil => intro a b h; simp [splitFirstChar] at h
  | cons x rest ih =>
      intro a b h
      simp only [splitFirstChar] at h
      split at h
      · cases h; simp
      · rename_i hx
        cases hr : splitFirstChar c rest with
        | none => rw [hr] at h; simp at h
        | some p =>
            rw [hr] at h
            cases h
            intro hm
            rcases List.mem_cons.mp hm with rfl | hm'
            · exact hx rfl
            · exact ih hr hm'

theorem splitFirstChar_append {c : Char} : ∀ {a : List Char} (b : List Char),
    c ∉ a → splitFirstChar c (a ++ c :: b) = some (a, b) := by
  intro a
  induction a with
  | nil => intro b _; simp [splitFirstChar]
  | cons x rest ih =>
      intro b hna
      have hx : x ≠ c := fun he => hna (he ▸ List.mem_cons_self x rest)
      have hrest : c ∉ rest := fun hm => hna (List.mem_cons.mpr (Or.inr hm))
      simp only [List.cons_append, splitFirstChar, if_neg hx]
      rw [show rest.append (c :: b) = rest ++ c :: b from rfl, ih b hrest]

theorem takeWhile_idem (p : Char → Bool) (l : List Char) :
    (l.takeWhile p).takeWhile p = l.takeWhile p :=
  List.takeWhile_eq_self_iff.mpr (fun _ ha => List.mem_takeWhile_imp ha)

/-- Normalization is idempotent on character lists. -/
theorem jidNormalizedUserL_idem (l : List Char) :
    jidNormalizedUserL (jidNormalizedUserL l) = jidNormalizedUserL l := by
  unfold jidNormalizedUserL
  cases hs : splitFirstChar '@' l with
  | none => simp [splitFirstChar]
  | some p =>
      obtain ⟨uc, server⟩ := p
      have hnotat : '@' ∉ uc := splitFirstChar_not_mem hs
      have huser_at : '@' ∉ uc.takeWhile (fun ch => ch ≠ ':') :=
        fun hm => hnotat ((List.takeWhile_sublist _).mem hm)
      have hserver_ne : (if server = "c.us".toList then "s.whatsapp.net".toList else server) ≠
          "c.us".toList := by
        by_cases h : server = "c.us".toList
        · rw [if_pos h]; decide
        · rw [if_neg h]; exact h
      rw [splitFirstChar_append _ huser_at]
      simp only [takeWhile_idem, if_neg hserver_ne]

/-- Normalization is idempotent. -/
theorem jidNormalizedUser_idem (s : String) :
    jidNormalizedUser (jidNormalizedUser s) = jidNormalizedUser s := by
  unfold jidNormalizedUser
  exact congrArg String.mk (jidNormalizedUserL_idem s.toList)

/-- Every resolver output is a normalized address. -/
theorem resolveContactId_normalized (g : String → Option String) (id : Option String)
    (hint : Option AliasHint) :
    jidNormalizedUser (resolveContactId g id hint) = resolveContactId g id hint := by
  unfold resolveContactId
  cases (if strEndsWith (id.getD "") "@lid" then hintCandidateContact hint else none) with
  | some cand => exact jidNormalizedUser_idem cand
  | none => exact jidNormalizedUser_idem _

theorem resolveChatId_normalized (g : String → Option String) (id : Option String)
    (hint : Option AliasHint) :
    jidNormalizedUser (resolveChatId g id hint) = resolveChatId g id hint := by
  unfold resolveChatId
  cases (if strEndsWith (id.getD "") "@lid" then hintCandidateChat hint else none) with
  | some cand => exact jidNormalizedUser_idem cand
  | none => exact jidNormalizedUser_idem _

/-! ## Claim C7: idempotent resolution -/

/-- C7 (amended). Resolution is idempotent whenever the injected lookup
returns no alias for the already-resolved address (in particular whenever no
lookup is injected): re-resolving a resolver output returns it unchanged,
because normalization itself is idempotent. The original claim — idempotence
under every injected collaborator — fails, since the lookup may map a
canonical address to a different one. -/
theorem C7_resolution_idempotent (getJid : String → Option String) (id : Option String)
    (hint : Option AliasHint) :
    (getJid (resolveContactId getJid id hint) = none →
      resolveContactId getJid (some (resolveContactId getJid id hint)) none =
        resolveContactId getJid id hint) ∧
    (getJid (resolveChatId getJid id hint) = none →
      resolveChatId getJid (some (resolveChatId getJid id hint)) none =
        resolveChatId getJid id hint) := by
  constructor
  · intro hg
    conv_lhs => rw [resolveContactId]
    simp [hintCandidateContact, hg, resolveContactId_normalized]
  · intro hg
    conv_lhs => rw [resolveChatId]
    simp [hintCandidateChat, hg, resolveChatId_normalized]

/-- C7 witness: with no injected lookup, resolving a device-suffixed address
twice equals resolving it once. -/
theorem C7_resolution_idempotent_witness :
    resolveContactId (fun _ => none)
        (some (resolveContactId (fun _ => none) (some "1:5@s.whatsapp.net") none)) none =
      resolveContactId (fun _ => none) (some "1:5@s.whatsapp.net") none ∧
    resolveChatId (fun _ => none)
        (some (resolveChatId (fun _ => none) (some "1:5@s.whatsapp.net") none)) none =
      resolveChatId (fun _ => none) (some "1:5@s.whatsapp.net") none :=
  ⟨(C7_resolution_idempotent (fun _ => none) (some "1:5@s.whatsapp.net") none).1 rfl,
    (C7_resolution_idempotent (fun _ => none) (some "1:5@s.whatsapp.net") none).2 rfl⟩

/-- The concrete adversarial lookup for the C7 counterexample: it maps the
canonical address of user 1 to the address of user 2 and knows nothing
else. -/
def cexGetJid : String → Option String :=
  fun s => if s = "1@s.whatsapp.net" then some "2@s.whatsapp.net" else none

/-- C7 counterexample: with that lookup injected, resolving the
device-suffixed address of user 1 yields the canonical address of user 1
(the lookup knows nothing about the raw form), but resolving that result
again consults the lookup and lands on user 2 — so resolve of resolve
differs from resolve for both resolvers. -/
theorem C7_counterexample :
    resolveContactId cexGetJid
        (some (resolveContactId cexGetJid (some "1:5@s.whatsapp.net") none)) none ≠
      resolveContactId cexGetJid (some "1:5@s.whatsapp.net") none ∧
    resolveChatId cexGetJid
        (some (resolveChatId cexGetJid (some "1:5@s.whatsapp.net") none)) none ≠
      resolveChatId cexGetJid (some "1:5@s.whatsapp.net") none := by
  constructor <;> decide

/-! ## Message handler (src/unnamed/part_002): reactions and upsert emission -/

/-- A structural message key as the handlers see it. -/
structure WAMessageKey where
  remoteJid : Option String
  fromMe : Option Bool
  id : Option String
  participant : Option String
  deriving DecidableEq, Repr

/-- getKeyAuthor (src/unnamed/part_002 lines 12-13): own messages author to
the fixed string me, otherwise the participant when truthy, otherwise the
remoteJid when truthy, otherwise the empty string; a missing key authors to
the empty string. -/
def getKeyAuthor : Option WAMessageKey → String
  | none => ""
  | some k =>
      if k.fromMe.getD false then "me"
      else if strTruthy k.participant then k.participant.getD ""
      else if strTruthy k.remoteJid then k.remoteJid.getD ""
      else ""

/-- A stored reaction: its author key, its text, and any further payload. -/
structure Reaction where
  key : Option WAMessageKey
  text : Option String
  extra : JsFields
  deriving DecidableEq, Repr

/-- The reaction merge from updateReaction (src/unnamed/part_002 lines
371-377): keep the stored reactions that carry a key and whose author
differs from the incoming author, then append the incoming reaction when its
text is truthy. -/
def mergeReaction (existing : List Reaction) (incoming : Reaction) : List Reaction :=
  let authorID := getKeyAuthor incoming.key
  let filtered := existing.filter
    (fun r => r.key.isSome && (getKeyAuthor r.key != authorID))
  if strTruthy incoming.text then filtered ++ [incoming] else filtered

/-- A stored Message row; only the columns the reaction and upsert claims
touch are carried, the rest of the payload being irrelevant to them. -/
structure MessageRow where
  sessionId : String
  remoteJid : String
  id : String
  reactions : List Reaction
  deriving DecidableEq, Repr

/-- The sessionId_remoteJid_id unique-key match. -/
def msgKeyEq (S jid mid : String) (m : MessageRow) : Bool :=
  m.sessionId == S && m.remoteJid == jid && m.id == mid

/-- resolveRemoteJid from the message handler (src/unnamed/part_002 lines
20-23): consult the injected lookup keyed by the message id, fall back to
the key's remoteJid, normalize. -/
def resolveRemoteJid (getJid : String → Option String) (key : WAMessageKey) : String :=
  jidNormalizedUser ((getJid (key.id.getD "")).getD (key.remoteJid.getD ""))

/-- The messages.reaction handler (src/unnamed/part_002 lines 357-396): find
the stored message under the resolved key; when absent, log and leave the
store unchanged; otherwise write back the merged reactions. (The write path
passes the plain reactions through the sanitizer, which is the identity on
them.) -/
def updateReactionHandler (S : String) (getJid : String → Option String)
    (key : WAMessageKey) (reaction : Reaction) (store : List MessageRow) :
    List MessageRow :=
  let jid := resolveRemoteJid getJid key
  let mid := key.id.getD ""
  if store.any (msgKeyEq S jid mid) then
    store.map (fun m =>
      if msgKeyEq S jid mid m then
        { m with reactions := mergeReaction m.reactions reaction }
      else m)
  else store

/-- toNumber, modelled from the external messaging library: numbers pass
through, Long instances combine their halves, other objects contribute
their low property, and nullish values become zero. -/
def toNumber : JsVal → Int
  | .vNum n => n
  | .vLong low high u => longToNumber low high u
  | .vObj fields => fieldNumOr0 fields "low"
  | _ => 0

/-- The message fields the upsert emission reads. -/
structure MsgIn where
  key : WAMessageKey
  messageTimestamp : JsVal
  deriving DecidableEq, Repr

/-- A synthesized chats.upsert event payload. -/
structure SynthChat where
  id : String
  conversationTimestamp : Int
  unreadCount : Int
  deriving DecidableEq, Repr

/-- The chat-existence probe of the upsert handler: count of Chat rows with
this id and session is positive. -/
def chatExists (S jid : String) (chatStore : List ChatRow) : Bool :=
  chatStore.any (fun c => c.id == jid && c.sessionId == S)

/-- The derived-event emission of the messages.upsert handler
(src/unnamed/part_002 lines 181-229): only the types append and notify are
processed at all; after each message's write, a chats.upsert event carrying
the resolved conversation id, the message's timestamp through toNumber, and
unreadCount 1 is emitted exactly when the type is notify and no Chat row
exists for that conversation and session. The message-table write itself
does not feed back into this decision, so the emission list is a faithful
projection of the handler. -/
def messagesUpsertEmits (S : String) (getJid : String → Option String) (type : String)
    (msgs : List MsgIn) (chatStore : List ChatRow) : List SynthChat :=
  if type = "append" ∨ type = "notify" then
    msgs.filterMap (fun msg =>
      let jid := resolveRemoteJid getJid msg.key
      if type = "notify" && !(chatExists S jid chatStore) then
        some { id := jid, conversationTimestamp := toNumber msg.messageTimestamp,
               unreadCount := 1 }
      else none)
  else []

/-- Reactions surviving the author filter never carry the incoming author. -/
theorem filter_author_filtered (existing : List Reaction) (A : String) :
    ((existing.filter (fun r => r.key.isSome && (getKeyAuthor r.key != A))).filter
      (fun r => getKeyAuthor r.key == A)) = [] := by
  induction existing with
  | nil => rfl
  | cons r rest ih =>
      simp only [List.filter]
      cases hk : r.key.isSome && (getKeyAuthor r.key != A)
      · simpa using ih
      · have hne : (getKeyAuthor r.key == A) = false := by
          have h2 := (Bool.and_eq_true _ _).mp hk
          simpa [bne] using h2.2
        simp only [List.filter, hne]
        exact ih

/-! ## Claim C2: reaction replace-by-author -/

/-- C2 (amended). A messages.reaction event on an existing stored Message
replaces the stored reactions with the merge: the result holds exactly one
reaction from the incoming author when the incoming text is non-empty (the
incoming one) and none when it is empty, and every prior reaction that
carries a key and whose author differs from the incoming author is still
present unchanged. The original claim's stronger frame — every prior
reaction from any other author survives — fails for stored reactions without
a key: the filter drops them although their author (the empty string)
differs from the incoming author. -/
theorem C2_reaction_replace (S : String) (getJid : String → Option String)
    (key : WAMessageKey) (reaction : Reaction) (store : List MessageRow) (m : MessageRow)
    (hfind : store.find? (msgKeyEq S (resolveRemoteJid getJid key) (key.id.getD "")) = some m) :
    ((updateReactionHandler S getJid key reaction store).find?
        (msgKeyEq S (resolveRemoteJid getJid key) (key.id.getD ""))).map MessageRow.reactions =
      some (mergeReaction m.reactions reaction) ∧
    (strTruthy reaction.text = true →
      (mergeReaction m.reactions reaction).filter
        (fun r => getKeyAuthor r.key == getKeyAuthor reaction.key) = [reaction]) ∧
    (strTruthy reaction.text = false →
      (mergeReaction m.reactions reaction).filter
        (fun r => getKeyAuthor r.key == getKeyAuthor reaction.key) = []) ∧
    (∀ r ∈ m.reactions, r.key.isSome = true →
      getKeyAuthor r.key ≠ getKeyAuthor reaction.key →
        r ∈ mergeReaction m.reactions reaction) := by
  have hmem := List.mem_of_find?_eq_some hfind
  have hpr := List.find?_some hfind
  have hany : store.any (msgKeyEq S (resolveRemoteJid getJid key) (key.id.getD "")) = true :=
    List.any_eq_true.mpr ⟨m, hmem, hpr⟩
  refine ⟨?_, ?_, ?_, ?_⟩
  · have hpres : ∀ x : MessageRow,
        msgKeyEq S (resolveRemoteJid getJid key) (key.id.getD "")
          (if msgKeyEq S (resolveRemoteJid getJid key) (key.id.getD "") x then
            { x with reactions := mergeReaction x.reactions reaction } else x) =
        msgKeyEq S (resolveRemoteJid getJid key) (key.id.getD "") x := by
      intro x
      cases hx : msgKeyEq S (resolveRemoteJid getJid key) (key.id.getD "") x
      · simp [hx]
      · simpa [hx, msgKeyEq] using hx
    simp only [updateReactionHandler, hany, if_true]
    rw [find?_map_pred _ _ _ hpres, hfind]
    simp [hpr]
  · intro ht
    simp only [mergeReaction, ht, if_true, List.filter_append, filter_author_filtered]
    simp [List.filter]
  · intro ht
    simp only [mergeReaction, ht, Bool.false_eq_true, if_false, filter_author_filtered]
  · intro r hr hsome hne
    have hmemf : r ∈ m.reactions.filter
        (fun x => x.key.isSome && (getKeyAuthor x.key != getKeyAuthor reaction.key)) := by
      refine List.mem_filter.mpr ⟨hr, ?_⟩
      simp [hsome, bne, hne]
    simp only [mergeReaction]
    cases strTruthy reaction.text
    · simpa using hmemf
    · simp only [if_true]
      exact List.mem_append.mpr (Or.inl hmemf)

/-- Concrete message key for user a, used by the sample scenarios below. -/
def keyA : WAMessageKey :=
  { remoteJid := some "a@s.whatsapp.net"
    fromMe := some false
    id := some "m1"
    participant := none }

/-- Concrete message key for user b. -/
def keyB : WAMessageKey :=
  { remoteJid := some "b@s.whatsapp.net"
    fromMe := some false
    id := none
    participant := none }

/-- Incoming reaction from author a with non-empty text. -/
def reactIncoming : Reaction := { key := some keyA, text := some "y", extra := .nil }

/-- Stored reaction carrying no key (its author is the empty string). -/
def reactKeyless : Reaction := { key := none, text := some "x", extra := .nil }

/-- Stored reaction from author b. -/
def reactFromB : Reaction := { key := some keyB, text := some "z", extra := .nil }

/-- Stored message holding the keyed reaction from author b. -/
def msgRowB : MessageRow :=
  { sessionId := "s1"
    remoteJid := "a@s.whatsapp.net"
    id := "m1"
    reactions := [reactFromB] }

/-- Stored message holding the keyless reaction. -/
def msgRowKeyless : MessageRow :=
  { sessionId := "s1"
    remoteJid := "a@s.whatsapp.net"
    id := "m1"
    reactions := [reactKeyless] }

/-- C2 witness: a message storing a keyed reaction from author b receives a
reaction from author a with non-empty text; afterwards the stored array is
the old reaction followed by the new one, so the old one survived. -/
theorem C2_reaction_replace_witness :
    ((updateReactionHandler "s1" (fun _ => none) keyA reactIncoming [msgRowB]).find?
      (msgKeyEq "s1" "a@s.whatsapp.net" "m1")).map MessageRow.reactions =
      some [reactFromB, reactIncoming] := by
  have h := C2_reaction_replace "s1" (fun _ => none) keyA reactIncoming [msgRowB] msgRowB
    (by decide)
  exact h.1.trans (by decide)

/-- C2 counterexample: a stored reaction with no key (author resolves to the
empty string) is dropped by a reaction update from the different author a,
although the original claim requires every prior reaction from any other
author to survive. -/
theorem C2_counterexample :
    updateReactionHandler "s1" (fun _ => none) keyA reactIncoming [msgRowKeyless] =
      [{ sessionId := "s1"
         remoteJid := "a@s.whatsapp.net"
         id := "m1"
         reactions := [reactIncoming] }] ∧
    getKeyAuthor reactKeyless.key ≠ getKeyAuthor reactIncoming.key := by
  constructor <;> decide

/-! ## Claim C6: derived chats.upsert emission -/

/-- C6 (amended). The messages.upsert handler emits a synthesized
chats.upsert event — carrying the resolved conversation id, the message's
timestamp through toNumber, and unreadCount 1 — exactly when the upsert type
is notify and no Chat row exists for that conversation and session; when a
Chat row exists, or the type is anything other than notify (including
append), nothing is emitted. -/
theorem C6_message_upsert_emission (S : String) (getJid : String → Option String)
    (type : String) (msg : MsgIn) (chatStore : List ChatRow) :
    (type = "notify" →
      chatExists S (resolveRemoteJid getJid msg.key) chatStore = false →
      messagesUpsertEmits S getJid type [msg] chatStore =
        [{ id := resolveRemoteJid getJid msg.key,
           conversationTimestamp := toNumber msg.messageTimestamp, unreadCount := 1 }]) ∧
    (chatExists S (resolveRemoteJid getJid msg.key) chatStore = true →
      messagesUpsertEmits S getJid type [msg] chatStore = []) ∧
    (type ≠ "notify" → messagesUpsertEmits S getJid type [msg] chatStore = []) := by
  refine ⟨?_, ?_, ?_⟩
  · intro ht hce
    subst ht
    simp [messagesUpsertEmits, hce]
  · intro hce
    by_cases ht : type = "append"
    · subst ht; simp [messagesUpsertEmits, hce]
    · by_cases ht2 : type = "notify"
      · subst ht2; simp [messagesUpsertEmits, hce]
      · simp [messagesUpsertEmits, ht, ht2]
  · intro ht
    by_cases ht2 : type = "append"
    · subst ht2; simp [messagesUpsertEmits]
    · simp [messagesUpsertEmits, ht, ht2]

/-- Concrete incoming message from user a with timestamp 123. -/
def msgA : MsgIn := { key := keyA, messageTimestamp := .vNum 123 }

/-- Concrete Chat row for user a's conversation under session s1. -/
def chatRowA : ChatRow :=
  { sessionId := "s1"
    id := "a@s.whatsapp.net"
    unreadCount := some 1
    data := .nil }

/-- C6 witness: a notify upsert for a conversation with no Chat row emits
the synthesized event with unreadCount 1, and the same upsert with the Chat
row present emits nothing. -/
theorem C6_message_upsert_emission_witness :
    messagesUpsertEmits "s1" (fun _ => none) "notify" [msgA] [] =
      [{ id := "a@s.whatsapp.net", conversationTimestamp := 123, unreadCount := 1 }] ∧
    messagesUpsertEmits "s1" (fun _ => none) "notify" [msgA] [chatRowA] = [] := by
  have h1 := C6_message_upsert_emission "s1" (fun _ => none) "notify" msgA []
  have h2 := C6_message_upsert_emission "s1" (fun _ => none) "notify" msgA [chatRowA]
  exact ⟨(h1.1 rfl (by decide)).trans (by decide), h2.2.1 (by decide)⟩

/-- C6 counterexample: an append-type upsert for a conversation with no Chat
row emits nothing, refuting the claim that the event is synthesized for any
upsert type. -/
theorem C6_counterexample :
    messagesUpsertEmits "s1" (fun _ => none) "append" [msgA] [] = [] ∧
    chatExists "s1" "a@s.whatsapp.net" [] = false := by
  constructor <;> decide


structure DbErr where
  code : Option String
  message : String
  deriving DecidableEq, Repr

def strIncludes (s pat : String) : Bool :=
  s.toList.tails.any (fun t => pat.toList.isPrefixOf t)

def isRetryable (e : DbErr) : Bool :=
  e.code == some "P2034" || strIncludes e.message "deadlock" ||
    strIncludes e.message "write conflict"

def backoffDelay (baseDelay : Nat) (jitter : Nat → Nat) (attempt : Nat) : Nat :=
  baseDelay * 2 ^ (attempt - 1) + jitter attempt

def retryGo {α : Type} (op : Nat → Except DbErr α) (maxRetries baseDelay : Nat)
    (jitter : Nat → Nat) : Nat → Nat → Except DbErr α × List Nat
  | _, 0 => (.error { code := none, message := "unreachable" }, [])
  | attempt, fuel + 1 =>
      match op attempt with
      | .ok a => (.ok a, [])
      | .error e =>
          if isRetryable e = true ∧ attempt < maxRetries then
            let rest := retryGo op maxRetries baseDelay jitter (attempt + 1) fuel
            (rest.1, backoffDelay baseDelay jitter attempt :: rest.2)
          else (.error e, [])

def retryDatabaseOperation {α : Type} (op : Nat → Except DbErr α)
    (maxRetries baseDelay : Nat) (jitter : Nat → Nat) : Except DbErr α × List Nat :=
  retryGo op maxRetries baseDelay jitter 1 maxRetries

theorem retryGo_success {α : Type} (op : Nat → Except DbErr α)
    (maxRetries baseDelay : Nat) (jitter : Nat → Nat) (k : Nat) (a : α)
    (e : Nat → DbErr) :
    ∀ fuel attempt, attempt + fuel = maxRetries + 1 → attempt ≤ k → k ≤ maxRetries →
    (∀ j, attempt ≤ j → j < k → op j = .error (e j) ∧ isRetryable (e j) = true) →
    op k = .ok a →
    retryGo op maxRetries baseDelay jitter attempt fuel =
      (.ok a, (List.range' attempt (k - attempt)).map (backoffDelay baseDelay jitter)) := by
  intro fuel
  induction fuel with
  | zero => intro attempt hsum hak hkm _ _; omega
  | succ fuel ih =>
      intro attempt hsum hak hkm hfail hok
      by_cases heq : attempt = k
      · subst heq
        simp [retryGo, hok]
      · have hlt : attempt < k := by omega
        have hf := hfail attempt (Nat.le_refl _) hlt
        have hguard : isRetryable (e attempt) = true ∧ attempt < maxRetries :=
          ⟨hf.2, by omega⟩
        simp only [retryGo, hf.1]
        rw [if_pos hguard,
          ih (attempt + 1) (by omega) (by omega) hkm
            (fun j hj1 hj2 => hfail j (by omega) hj2) hok]
        have hrange : List.range' attempt (k - attempt) =
            attempt :: List.range' (attempt + 1) (k - (attempt + 1)) := by
          have : k - attempt = (k - (attempt + 1)) + 1 := by omega
          rw [this, List.range'_succ]
        rw [hrange]
        simp

theorem retryGo_allfail {α : Type} (op : Nat → Except DbErr α)
    (maxRetries baseDelay : Nat) (jitter : Nat → Nat) (e : Nat → DbErr) :
    ∀ fuel attempt, attempt + fuel = maxRetries + 1 → 1 ≤ attempt → attempt ≤ maxRetries →
    (∀ j, attempt ≤ j → j ≤ maxRetries → op j = .error (e j) ∧ isRetryable (e j) = true) →
    retryGo op maxRetries baseDelay jitter attempt fuel =
      (.error (e maxRetries),
        (List.range' attempt (maxRetries - attempt)).map (backoffDelay baseDelay jitter)) := by
  intro fuel
  induction fuel with
  | zero => intro attempt hsum _ ham _; omega
  | succ fuel ih =>
      intro attempt hsum h1 ham hfail
      have hf := hfail attempt (Nat.le_refl _) ham
      by_cases heq : attempt = maxRetries
      · subst heq
        simp only [retryGo, hf.1]
        rw [if_neg (by omega)]
        simp
      · have hlt : attempt < maxRetries := by omega
        have hguard : isRetryable (e attempt) = true ∧ attempt < maxRetries := ⟨hf.2, hlt⟩
        simp only [retryGo, hf.1]
        rw [if_pos hguard,
          ih (attempt + 1) (by omega) (by omega) (by omega)
            (fun j hj1 hj2 => hfail j (by omega) hj2)]
        have hrange : List.range' attempt (maxRetries - attempt) =
            attempt :: List.range' (attempt + 1) (maxRetries - (attempt + 1)) := by
          have : maxRetries - attempt = (maxRetries - (attempt + 1)) + 1 := by omega
          rw [this, List.range'_succ]
        rw [hrange]
        simp

/-- C3. Retry wrapper semantics: a non-transient first failure is re-raised
immediately with no waits; when the first success comes at attempt k (all
earlier attempts failing transiently), its result is returned after waits of
baseDelay times 2 to the n minus 1 plus jitter for n = 1 .. k-1; when every
attempt up to maxRetries fails transiently, the last observed error value is
re-raised unchanged after the maxRetries - 1 waits. -/
theorem C3_retry_backoff {α : Type} (op : Nat → Except DbErr α) (maxRetries baseDelay : Nat)
    (jitter : Nat → Nat) (hmax : 1 ≤ maxRetries) :
    (∀ e, op 1 = .error e → isRetryable e = false →
      retryDatabaseOperation op maxRetries baseDelay jitter = (.error e, [])) ∧
    (∀ (k : Nat) (a : α) (e : Nat → DbErr), 1 ≤ k → k ≤ maxRetries →
      (∀ j, 1 ≤ j → j < k → op j = .error (e j) ∧ isRetryable (e j) = true) →
      op k = .ok a →
      retryDatabaseOperation op maxRetries baseDelay jitter =
        (.ok a, (List.range' 1 (k - 1)).map (backoffDelay baseDelay jitter))) ∧
    (∀ e : Nat → DbErr,
      (∀ j, 1 ≤ j → j ≤ maxRetries → op j = .error (e j) ∧ isRetryable (e j) = true) →
      retryDatabaseOperation op maxRetries baseDelay jitter =
        (.error (e maxRetries),
          (List.range' 1 (maxRetries - 1)).map (backoffDelay baseDelay jitter))) := by
  refine ⟨?_, ?_, ?_⟩
  · intro e hop hnr
    unfold retryDatabaseOperation
    cases maxRetries with
    | zero => omega
    | succ m =>
        simp only [retryGo, hop]
        rw [if_neg]
        intro hc
        rw [hnr] at hc
        exact Bool.false_ne_true hc.1
  · intro k a e h1 hk hfail hok
    unfold retryDatabaseOperation
    have := retryGo_success op maxRetries baseDelay jitter k a e maxRetries 1
      (by omega) h1 hk (fun j hj1 hj2 => hfail j hj1 hj2) hok
    simpa using this
  · intro e hfail
    unfold retryDatabaseOperation
    have := retryGo_allfail op maxRetries baseDelay jitter e maxRetries 1
      (by omega) (by omega) hmax (fun j hj1 hj2 => hfail j hj1 hj2)
    simpa using this

/-- The transient error used by the retry witness. -/
def cerrConflict : DbErr := { code := some "P2034", message := "conflict" }

/-- Operation that fails transiently on attempts 1 and 2 and succeeds on 3. -/
def cexOpRecovering : Nat → Except DbErr Nat :=
  fun n => if n < 3 then .error cerrConflict else .ok 42

/-- Operation that always fails with a non-transient error. -/
def cexOpFatal : Nat → Except DbErr Nat :=
  fun _ => .error { code := none, message := "boom" }

/-- C3 witness: with maxRetries 3, base delay 100 and jitter 7, the
recovering operation returns 42 after waits of 107 and 207 ms, and the
non-transient failure is re-raised immediately with no waits. -/
theorem C3_retry_backoff_witness :
    retryDatabaseOperation cexOpRecovering 3 100 (fun _ => 7) = (.ok 42, [107, 207]) ∧
    retryDatabaseOperation cexOpFatal 3 100 (fun _ => 7) =
      (.error { code := none, message := "boom" }, []) := by
  constructor
  · have h := (C3_retry_backoff cexOpRecovering 3 100 (fun _ => 7) (by omega)).2.1
      3 42 (fun _ => cerrConflict) (by omega) (by omega)
      (by
        intro j hj1 hj2
        have : j = 1 ∨ j = 2 := by omega
        rcases this with rfl | rfl
        · exact ⟨rfl, by decide⟩
        · exact ⟨rfl, by decide⟩)
      rfl
    exact h.trans rfl
  · exact (C3_retry_backoff cexOpFatal 3 100 (fun _ => 7) (by omega)).1
      { code := none, message := "boom" } rfl (by decide)

/-! ## Handler error propagation (claims C4 and C10)

Each registered event handler is modelled by its control flow over the
outcomes of the storage operations its body performs: what it re-raises to
the event emitter and whether it logs an error. The outcome lists are the
results of the per-record (or per-transaction) storage calls, in order. -/

/-- Result of one handler run. -/
structure HandlerOutcome where
  raised : Option DbErr
  loggedError : Bool
  deriving DecidableEq, Repr

/-- Promise.any over per-record outcomes: fulfilled as soon as any operation
succeeds; rejected, with the aggregate of all errors, only when every one
fails (also when the list is empty). -/
def promiseAny (outcomes : List (Except DbErr Unit)) : Except (List DbErr) Unit :=
  if outcomes.any (fun o => o.isOk) then .ok ()
  else .error (outcomes.filterMap (fun o => match o with
    | .error e => some e
    | .ok _ => none))

/-- First failing outcome, the error a Promise.all chain rejects with. -/
def firstErr : List (Except DbErr Unit) → Option DbErr
  | [] => none
  | .error e :: _ => some e
  | .ok _ :: rest => firstErr rest

/-- chats.set (src/handlers/chat.ts lines 12-44): one transaction inside
try/catch; the catch logs and returns. -/
def chatsSetOutcome (tx : Except DbErr Unit) : HandlerOutcome :=
  match tx with
  | .ok _ => { raised := none, loggedError := false }
  | .error _ => { raised := none, loggedError := true }

/-- chats.upsert (src/handlers/chat.ts lines 46-63): per-record upserts
joined with Promise.any inside try/catch; the catch logs and returns, so an
error is logged exactly when the join rejects. -/
def chatsUpsertOutcome (outcomes : List (Except DbErr Unit)) : HandlerOutcome :=
  match promiseAny outcomes with
  | .ok _ => { raised := none, loggedError := false }
  | .error _ => { raised := none, loggedError := true }

/-- chats.update (src/handlers/chat.ts lines 65-98): a per-record try/catch
inside the loop logs and continues. -/
def chatsUpdateOutcome (outcomes : List (Except DbErr Unit)) : HandlerOutcome :=
  { raised := none, loggedError := outcomes.any (fun o => !o.isOk) }

/-- chats.delete (src/handlers/chat.ts lines 100-108): one deleteMany inside
try/catch. -/
def chatsDelOutcome (tx : Except DbErr Unit) : HandlerOutcome :=
  match tx with
  | .ok _ => { raised := none, loggedError := false }
  | .error _ => { raised := none, loggedError := true }

/-- contacts.set (src/handlers/contact.ts lines 35-71): the upserts and the
stale-contact delete joined with Promise.any inside try/catch. -/
def contactsSetOutcome (outcomes : List (Except DbErr Unit)) : HandlerOutcome :=
  match promiseAny outcomes with
  | .ok _ => { raised := none, loggedError := false }
  | .error _ => { raised := none, loggedError := true }

/-- contacts.upsert (src/handlers/contact.ts lines 73-93): Promise.any join
inside try/catch. -/
def contactsUpsertOutcome (outcomes : List (Except DbErr Unit)) : HandlerOutcome :=
  match promiseAny outcomes with
  | .ok _ => { raised := none, loggedError := false }
  | .error _ => { raised := none, loggedError := true }

/-- contacts.update (src/handlers/contact.ts lines 95-120): per-record
try/catch, log and continue. -/
def contactsUpdateOutcome (outcomes : List (Except DbErr Unit)) : HandlerOutcome :=
  { raised := none, loggedError := outcomes.any (fun o => !o.isOk) }

/-- messages.upsert (src/unnamed/part_002 lines 181-229): per-message
try/catch, log and continue. -/
def messagesUpsertOutcome (outcomes : List (Except DbErr Unit)) : HandlerOutcome :=
  { raised := none, loggedError := outcomes.any (fun o => !o.isOk) }

/-- messages.update (src/unnamed/part_002 lines 231-297): per-update
try/catch, log and continue. -/
def messagesUpdateOutcome (outcomes : List (Except DbErr Unit)) : HandlerOutcome :=
  { raised := none, loggedError := outcomes.any (fun o => !o.isOk) }

/-- messages.delete (src/unnamed/part_002 lines 299-313): the body is
commented out, so the handler does nothing at all. -/
def messagesDelOutcome : HandlerOutcome := { raised := none, loggedError := false }

/-- message-receipt.update (src/unnamed/part_002 lines 315-355): per-item
try/catch, log and continue. -/
def messagesReceiptOutcome (outcomes : List (Except DbErr Unit)) : HandlerOutcome :=
  { raised := none, loggedError := outcomes.any (fun o => !o.isOk) }

/-- messages.reaction (src/unnamed/part_002 lines 357-396): per-item
try/catch, log and continue. -/
def messagesReactionOutcome (outcomes : List (Except DbErr Unit)) : HandlerOutcome :=
  { raised := none, loggedError := outcomes.any (fun o => !o.isOk) }

/-- messaging-history.set of the message handler (src/unnamed/part_002 lines
58-179): a failing batch transaction is logged and re-thrown inside the
Promise.all fan-out (line 164) and the outer catch logs and re-throws again
(line 177), so the first batch failure escapes the handler. -/
def messagesSetOutcome (batchOutcomes : List (Except DbErr Unit)) : HandlerOutcome :=
  match firstErr batchOutcomes with
  | none => { raised := none, loggedError := false }
  | some e => { raised := some e, loggedError := true }

/-! ## Claim C4: handlers never raise into the event emitter -/

/-- C4 (amended). Every event handler registered by the chat, contact, and
message handlers catches storage-layer errors, logs them and returns
cleanly — except the message handler's messaging-history.set handler, which
logs a failing batch and deliberately re-throws it to the event emitter. -/
theorem C4_handlers_never_raise (outcomes : List (Except DbErr Unit))
    (tx : Except DbErr Unit) (batchOutcomes : List (Except DbErr Unit)) :
    (chatsSetOutcome tx).raised = none ∧
    (chatsUpsertOutcome outcomes).raised = none ∧
    (chatsUpdateOutcome outcomes).raised = none ∧
    (chatsDelOutcome tx).raised = none ∧
    (contactsSetOutcome outcomes).raised = none ∧
    (contactsUpsertOutcome outcomes).raised = none ∧
    (contactsUpdateOutcome outcomes).raised = none ∧
    (messagesUpsertOutcome outcomes).raised = none ∧
    (messagesUpdateOutcome outcomes).raised = none ∧
    messagesDelOutcome.raised = none ∧
    (messagesReceiptOutcome outcomes).raised = none ∧
    (messagesReactionOutcome outcomes).raised = none ∧
    (messagesSetOutcome batchOutcomes).raised = firstErr batchOutcomes := by
  refine ⟨?_, ?_, rfl, ?_, ?_, ?_, rfl, rfl, rfl, rfl, rfl, rfl, ?_⟩
  · cases tx <;> rfl
  · cases h : promiseAny outcomes <;> simp [chatsUpsertOutcome, h]
  · cases tx <;> rfl
  · cases h : promiseAny outcomes <;> simp [contactsSetOutcome, h]
  · cases h : promiseAny outcomes <;> simp [contactsUpsertOutcome, h]
  · cases hf : firstErr batchOutcomes <;> simp [messagesSetOutcome, hf]

/-- C4 counterexample: a storage failure in the first batch of a
messaging-history.set event escapes the message handler, refuting the claim
that every registered handler returns cleanly on every storage error. -/
theorem C4_counterexample :
    (messagesSetOutcome [.error { code := none, message := "db down" }]).raised =
      some { code := none, message := "db down" } := by decide

/-! ## Claim C10: Promise.any join in the upsert handlers -/

/-- C10. In the chats.upsert and contacts.upsert handlers, per-record
outcomes are joined with Promise.any: for a non-empty record list, the
handler raises nothing and logs no error as soon as at least one record's
upsert succeeds — sibling failures are silently discarded — and the error
path (catch and log) is taken exactly when every record's upsert fails. -/
theorem C10_upsert_promise_any_join (outcomes : List (Except DbErr Unit))
    (hne : outcomes ≠ []) :
    ((∃ o ∈ outcomes, o.isOk = true) →
      chatsUpsertOutcome outcomes = { raised := none, loggedError := false } ∧
      contactsUpsertOutcome outcomes = { raised := none, loggedError := false }) ∧
    ((chatsUpsertOutcome outcomes).loggedError = true ↔ ∀ o ∈ outcomes, o.isOk = false) ∧
    ((contactsUpsertOutcome outcomes).loggedError = true ↔ ∀ o ∈ outcomes, o.isOk = false) ∧
    (chatsUpsertOutcome outcomes).raised = none ∧
    (contactsUpsertOutcome outcomes).raised = none := by
  have hchats : chatsUpsertOutcome outcomes =
      { raised := none, loggedError := !outcomes.any (fun o => o.isOk) } := by
    unfold chatsUpsertOutcome promiseAny
    cases h : outcomes.any (fun o => o.isOk) <;> simp [h]
  have hcontacts : contactsUpsertOutcome outcomes =
      { raised := none, loggedError := !outcomes.any (fun o => o.isOk) } := by
    unfold contactsUpsertOutcome promiseAny
    cases h : outcomes.any (fun o => o.isOk) <;> simp [h]
  refine ⟨?_, ?_, ?_, ?_, ?_⟩
  · intro hex
    have ha : outcomes.any (fun o => o.isOk) = true := List.any_eq_true.mpr hex
    rw [hchats, hcontacts, ha]
    exact ⟨rfl, rfl⟩
  · rw [hchats]
    simp [List.any_eq_false]
  · rw [hcontacts]
    simp [List.any_eq_false]
  · rw [hchats]
  · rw [hcontacts]

/-- C10 witness: with one failing and one succeeding record, both upsert
handlers resolve cleanly with no error logged; with both records failing,
the error path is taken. -/
theorem C10_upsert_promise_any_join_witness :
    chatsUpsertOutcome [.error { code := none, message := "boom" }, .ok ()] =
      { raised := none, loggedError := false } ∧
    ((chatsUpsertOutcome [.error { code := none, message := "boom" },
        .error { code := none, message := "boom2" }]).loggedError = true) :=
  ⟨((C10_upsert_promise_any_join [.error { code := none, message := "boom" }, .ok ()]
      (by simp)).1 ⟨.ok (), by simp, rfl⟩).1,
    ((C10_upsert_promise_any_join [.error { code := none, message := "boom" },
        .error { code := none, message := "boom2" }] (by simp)).2.1).mpr
      (by decide)⟩

end WaStore
